import Mathlib

/-!
# Verification of `scheduler/getStatsAndResolveSymlinks.c`

A shallow embedding of the file-inventory scanner: the C program walks a
directory subtree with `fts` (physical walk, `FTS_PHYSICAL`), classifies each
visited entry, maintains a stack of active symlink redirections, decides per
symlink whether to virtually enter its target (`fts_set(..., FTS_FOLLOW)` plus
a one-shot `skip_next` flag), and streams one semicolon-separated record per
visited entry to an output file.

The embedding has three layers, each translated from the source:

* byte-level string helpers mirroring `strncmp`/`strcpy`/`strcat`/pointer
  arithmetic on NUL-terminated ASCII strings;
* `loopStep`/`loopRun`: the body of the `while ((ptr = fts_read(...)))` loop
  of `getFullDescr` (lines 171-257) and its twin in
  `getShortDescrAndTimestamp` (lines 293-378), consuming a list of traversal
  events (the `FTSENT` stream);
* `genVisit`/`mkEvents`: the `fts` traversal itself (the event stream the OS
  hands to the loop), modelled from the documented `fts(3)` semantics:
  preorder `FTS_D`, postorder `FTS_DP`, `FTS_F` for regular files, `FTS_SL`
  for symlinks under a physical walk, and the `FTS_FOLLOW` one-shot override
  re-yielding the symlink's node with the link dereferenced.  `realpath(3)`,
  `access(2)` and `stat(2)` are modelled over an abstract filesystem tree
  (absolute or relative symlink targets, no `.`/`..` components); resolution
  is fuel-limited because symlink chains may diverge.
-/

/-- Byte length of an ASCII string (`strlen`). -/
def strLen (s : String) : Nat := s.data.length

/-- `strncmp(a, b, strlen a) == 0`: the bytes of `a` are a prefix of `b`. -/
def strPrefix (a b : String) : Bool := List.isPrefixOf a.data b.data

/-- `&s[n]` on a NUL-terminated string: drop the first `n` bytes. -/
def strDropN (s : String) (n : Nat) : String := ⟨s.data.drop n⟩

/-- Render path components as an absolute path string (`"/" ++ name` each);
the empty component list denotes the filesystem root `"/"`. -/
def render (comps : List String) : String :=
  if comps.isEmpty then "/" else comps.foldl (fun acc c => acc ++ "/" ++ c) ""

/-- Metadata carried by every filesystem node (the `struct stat` fields the
program reads: `st_size`, `st_ctim`, `st_atim`, `st_mtim`). -/
structure FMeta where
  size : Int
  ctim : Int × Int
  atim : Int × Int
  mtim : Int × Int
deriving DecidableEq, Repr

/-- Abstract filesystem node: directory with named children (in directory
read order), regular file, or symbolic link holding its target text. -/
inductive FNode where
  | dir : FMeta → List (String × FNode) → FNode
  | file : FMeta → FNode
  | symlink : FMeta → String → FNode
deriving Repr

/-- Is this node a directory (`S_ISDIR`)? -/
def isDirN : FNode → Bool
  | FNode.dir _ _ => true
  | _ => false

/-- Metadata of a node. -/
def nodeMeta : FNode → FMeta
  | FNode.dir m _ => m
  | FNode.file m => m
  | FNode.symlink m _ => m

/-- Look up a directory entry by name. -/
def findChild (c : String) (ch : List (String × FNode)) : Option FNode :=
  (ch.find? (fun p => p.1 = c)).map (fun p => p.2)

/-- Split link text on `/` into components, dropping empty ones. -/
def splitSlash (l : List Char) (acc : List Char) : List (List Char) :=
  match l with
  | [] => [acc.reverse]
  | '/' :: rest => acc.reverse :: splitSlash rest []
  | c :: rest => splitSlash rest (c :: acc)

/-- Parse symlink target text: `(isAbsolute, components)`.  Targets with
`.`/`..` components are out of the model's scope (treated verbatim). -/
def parseTarget (t : String) : Bool × List String :=
  match t.data with
  | '/' :: rest => (true, ((splitSlash rest []).filter (· ≠ [])).map (fun l => ⟨l⟩))
  | l => (false, ((splitSlash l []).filter (· ≠ [])).map (fun l => ⟨l⟩))

/-- Resolve a path against the tree rooted at `root`, following symlinks in
every component (the behaviour of `realpath(3)`/`stat(2)`): returns the
canonical component list together with the node it denotes, `none` when a
component is missing, a non-directory is used as a directory, or `fuel`
runs out (symlink chains may diverge).  `canAcc`/`cur` are the canonical
prefix resolved so far and its node; `rest` the components still to walk. -/
def resolvePath (root : FNode) : Nat → List String → FNode → List String →
    Option (List String × FNode)
  | 0, _, _, _ => none
  | _ + 1, canAcc, cur, [] => some (canAcc, cur)
  | fuel + 1, canAcc, cur, c :: rs =>
    match cur with
    | FNode.dir _ ch =>
      match findChild c ch with
      | none => none
      | some (FNode.symlink _ t) =>
        match parseTarget t with
        | (true, tcomps) => resolvePath root fuel [] root (tcomps ++ rs)
        | (false, tcomps) => resolvePath root fuel canAcc cur (tcomps ++ rs)
      | some child => resolvePath root fuel (canAcc ++ [c]) child rs
    | _ => none

/-- `realpath(3)` on a component path: canonicalize from the root. -/
def realpathF (fuel : Nat) (root : FNode) (p : List String) :
    Option (List String × FNode) :=
  resolvePath root fuel [] root p

/-- `lstat`-style lookup used by `fts` for a root argument: intermediate
components follow symlinks, the final component does not. -/
def lookupPhys (fuel : Nat) (root : FNode) (p : List String) : Option FNode :=
  match p.getLast? with
  | none => some root
  | some last =>
    match realpathF fuel root p.dropLast with
    | some (_, FNode.dir _ ch) => findChild last ch
    | _ => none

/-- `opendir` succeeds: the path resolves (following symlinks) to a
directory.  Used by the driver's pre-checks (lines 110-124). -/
def existsAsDir (fuel : Nat) (root : FNode) (p : List String) : Bool :=
  match realpathF fuel root p with
  | some (_, n) => isDirN n
  | none => false

/-- The `fts_info` values the loop distinguishes: preorder directory,
postorder directory, regular file, symlink, and the `default:` bucket
(e.g. `FTS_DNR` unreadable directory, `FTS_NS` stat failure). -/
inductive FInfo where
  | d | dp | f | sl | dnr | ns
deriving DecidableEq, Repr

/-- The kind labels assigned by the `switch` (lines 182-202). -/
inductive Kind where
  | directory | regular | symlink
deriving DecidableEq, Repr

/-- One element of the `FTSENT` stream, together with the results the loop
body would obtain from the OS for a symlink entry: `slResolved` is the
`realpath(ptr->fts_path)` result (`none` = `NULL`, buffer left `""`),
`slAccess` whether `access(target, F_OK) == 0`, and `slStat` the
`stat(target)` outcome (`none` = failure, `some b` with `b = S_ISDIR`). -/
structure FEvent where
  info : FInfo
  path : String
  meta : FMeta
  slResolved : Option String := none
  slAccess : Bool := false
  slStat : Option Bool := none
deriving DecidableEq, Repr

/-- One redirection on the symlink stack (`struct symlink`): `src` is the
symlink's traversal path, `dst` the resolved target path
(`push_symlink(stack, ptr->fts_path, symlink_target_path)`, line 253). -/
structure SLink where
  src : String
  dst : String
deriving DecidableEq, Repr

/-- Loop state: the `skip_next` flag and the symlink stack (head = top;
the C stack pushes and pops only at the top, lines 44-76). -/
structure LState where
  skip : Bool
  stack : List SLink
deriving DecidableEq, Repr

/-- Configuration visible to the loop: `local_dir`, `dir[0]` (the first
search root as a string) and the fuel given to path resolution. -/
structure Cfg where
  localDir : String
  dir0 : String
  rfuel : Nat
deriving DecidableEq, Repr

/-- An emitted record, field by field as printed by the `fprintf` at lines
220-232 / 342-354.  `exCode`/`kind` are `none` when the `switch` hit its
`default:` branch and left `exists`/`file_type` uninitialized (the C reads
indeterminate values there; the model marks them unassigned). -/
structure FileRec where
  path : String
  exCode : Option Int
  target : String
  size : Int
  kind : Option Kind
  ctim : Int × Int
  atim : Int × Int
  mtim : Int × Int
deriving DecidableEq, Repr

/-- `file_type` as assigned by the `switch` on `fts_info`. -/
def classifyKind : FInfo → Option Kind
  | FInfo.d => some Kind.directory
  | FInfo.f => some Kind.regular
  | FInfo.sl => some Kind.symlink
  | _ => none

/-- `exists` as assigned by the `switch`: `1` for directories and regular
files; for symlinks `1 + access(target, F_OK)` where `access` returns `0`
on success and `-1` on failure, hence `1` or `0`. -/
def classifyEx (e : FEvent) : Option Int :=
  match e.info with
  | FInfo.d => some 1
  | FInfo.f => some 1
  | FInfo.sl => some (if e.slAccess then 1 else 0)
  | _ => none

/-- Contents of `symlink_target_path` after the `switch`: `""` is copied in
first; for a symlink, `realpath` overwrites it on success (on `NULL` the
buffer keeps `""`). -/
def bufOf (e : FEvent) : String :=
  if e.info = FInfo.sl then e.slResolved.getD "" else ""

/-- Reconciliation of the stack (lines 204-209): pop from the top while the
top's `src` is not a string prefix of the current `fts_path`, stopping when
the stack empties or the top matches.  Runs only when the stack is nonempty
and the entry is not a symlink (line 203); for `default:` entries the C
compares an uninitialized `file_type` pointer with a literal, which is
modelled as "not a symlink" (the comparison is almost surely unequal). -/
def reconStack (k : Option Kind) (stack : List SLink) (path : String) :
    List SLink :=
  if stack ≠ [] ∧ k ≠ some Kind.symlink then
    stack.dropWhile (fun l => !(strPrefix l.src path))
  else stack

/-- Buffer rewrite after reconciliation (lines 210-218): when the surviving
stack is nonempty, the buffer becomes `top.dst ++ fts_path[strlen top.src:]`
(`strcpy` of `dst` then `strcat` of the suffix); otherwise it is left as the
`switch` set it. -/
def reconBuf (k : Option Kind) (stack : List SLink) (path : String)
    (buf0 : String) : String :=
  if stack ≠ [] ∧ k ≠ some Kind.symlink then
    match stack.dropWhile (fun l => !(strPrefix l.src path)) with
    | [] => buf0
    | top :: _ => top.dst ++ strDropN path (strLen top.src)
  else buf0

/-- One iteration of the `while (fts_read)` loop (lines 171-257): returns
the record printed (if any), the successor state, and `some rc` when the
iteration executes `return rc` (the `stat` failure at lines 247-250). -/
def loopStep (cfg : Cfg) (e : FEvent) (st : LState) :
    Option FileRec × LState × Option Int :=
  if e.info = FInfo.dp then (none, st, none)
  else if st.skip then (none, ⟨false, st.stack⟩, none)
  else
    let k := classifyKind e.info
    let buf1 := reconBuf k st.stack e.path (bufOf e)
    let stack1 := reconStack k st.stack e.path
    let r : FileRec := ⟨e.path, classifyEx e, buf1, e.meta.size, k,
                        e.meta.ctim, e.meta.atim, e.meta.mtim⟩
    if k = some Kind.symlink then
      if ¬ strPrefix cfg.localDir buf1 then (some r, ⟨false, stack1⟩, none)
      else if strPrefix cfg.dir0 buf1 then (some r, ⟨false, stack1⟩, none)
      else
        match e.slStat with
        | none => (some r, ⟨false, stack1⟩, some (-1))
        | some isd =>
          if isd then (some r, ⟨true, ⟨e.path, buf1⟩ :: stack1⟩, none)
          else (some r, ⟨false, stack1⟩, none)
    else (some r, ⟨false, stack1⟩, none)

/-- The whole loop over an event stream: the records printed, the final
state, and the return code (0 after a clean pass, the early `return`'s
code if an iteration aborted — later events are then never read). -/
def loopRun (cfg : Cfg) : List FEvent → LState → List FileRec × LState × Int
  | [], st => ([], st, 0)
  | e :: rest, st =>
    match loopStep cfg e st with
    | (r?, st', some rc) => (r?.toList, st', rc)
    | (r?, st', none) =>
      let out := loopRun cfg rest st'
      (r?.toList ++ out.1, out.2)

/-- The `FTS_SL` event `fts_read` yields for the symlink at virtual path
`vcomps`, with the results of the loop's `realpath`/`access` calls. -/
def slEventOf (fs : FNode) (cfg : Cfg) (vcomps : List String) (m : FMeta) :
    FEvent :=
  let ropt := realpathF cfg.rfuel fs vcomps
  { info := FInfo.sl, path := render vcomps, meta := m,
    slResolved := ropt.map (fun x => render x.1),
    slAccess := ropt.isSome,
    slStat := ropt.map (fun x => isDirN x.2) }

/-- The event stream `fts_read` produces for the node at virtual path
`vcomps`, given that the loop requests `FTS_FOLLOW` exactly when the
resolved target is a directory under `local_dir` but not under `dir[0]`
(lines 234-255): a directory yields preorder `FTS_D`, its children in
order, then postorder `FTS_DP`; a file yields `FTS_F`; a symlink yields
`FTS_SL`, and when followed, the re-read of the same path as `FTS_D`
(the entry `skip_next` suppresses) followed by the target's children under
the symlink's own virtual path and the closing `FTS_DP`.  `fuel` bounds the
depth (virtual symlink descent can recurse forever). -/
def genVisit (fs : FNode) (cfg : Cfg) :
    Nat → List String → FNode → List FEvent
  | 0, _, _ => []
  | _ + 1, vcomps, FNode.file m => [{ info := FInfo.f, path := render vcomps, meta := m }]
  | fuel + 1, vcomps, FNode.dir m ch =>
    { info := FInfo.d, path := render vcomps, meta := m } ::
      ((ch.flatMap fun p => genVisit fs cfg fuel (vcomps ++ [p.1]) p.2) ++
        [{ info := FInfo.dp, path := render vcomps, meta := m }])
  | fuel + 1, vcomps, FNode.symlink m _ =>
    let ev := slEventOf fs cfg vcomps m
    match realpathF cfg.rfuel fs vcomps with
    | some (tc, FNode.dir tm tch) =>
      if strPrefix cfg.localDir (render tc) ∧ ¬ strPrefix cfg.dir0 (render tc) then
        ev :: { info := FInfo.d, path := render vcomps, meta := tm } ::
          ((tch.flatMap fun p => genVisit fs cfg fuel (vcomps ++ [p.1]) p.2) ++
            [{ info := FInfo.dp, path := render vcomps, meta := tm }])
      else [ev]
    | _ => [ev]

/-- Events of one root argument handed to `fts_open`: the root path is
looked up without following its own final symlink (physical walk). -/
def rootEvents (fs : FNode) (cfg : Cfg) (fuel : Nat) (rc : List String) :
    List FEvent :=
  match lookupPhys cfg.rfuel fs rc with
  | some n => genVisit fs cfg fuel rc n
  | none => []

/-- The full `FTSENT` stream: `fts_open` receives the whole argv tail, so
every supplied root is traversed, in order. -/
def mkEvents (fs : FNode) (cfg : Cfg) (fuel : Nat)
    (roots : List (List String)) : List FEvent :=
  roots.flatMap (rootEvents fs cfg fuel)

/-- `"%li%li"`: seconds and nanoseconds concatenated with no separator. -/
def renderTs (t : Int × Int) : String := toString t.1 ++ toString t.2

/-- `"%i"` of the `exists` field; `"?"` marks the indeterminate value the C
prints when the `default:` branch left it uninitialized. -/
def renderOptInt : Option Int → String
  | some n => toString n
  | none => "?"

/-- `"%s"` of `file_type`; `"?"` marks the indeterminate pointer. -/
def renderKind : Option Kind → String
  | some Kind.directory => "directory"
  | some Kind.regular => "regular file"
  | some Kind.symlink => "symbolic link"
  | none => "?"

/-- One output line (`fprintf` format
`"%s;%i;%s;%li;%s;%li%li;%li%li;%li%li\n"`, identical at lines 220-232 and
342-354). -/
def renderFull (r : FileRec) : String :=
  r.path ++ ";" ++ renderOptInt r.exCode ++ ";" ++ r.target ++ ";" ++
    toString r.size ++ ";" ++ renderKind r.kind ++ ";" ++ renderTs r.ctim ++
    ";" ++ renderTs r.atim ++ ";" ++ renderTs r.mtim

/-- Build the loop configuration from the local-root components and the
first search root (the strings the C receives in argv). -/
def mkCfg (localComps r0 : List String) (rfuel : Nat) : Cfg :=
  ⟨render localComps, render r0, rfuel⟩

/-- `getFullDescr` (lines 152-262): `openFail` models `fts_open` returning
`NULL` (line 160); an empty root list models `fts_children` returning
`NULL` (line 165).  Output lines and return code. -/
def getFullDescr (openFail : Bool) (fs : FNode) (cfg : Cfg) (fuel : Nat)
    (roots : List (List String)) : List String × Int :=
  if openFail then ([], -1)
  else if roots.isEmpty then ([], 0)
  else
    let out := loopRun cfg (mkEvents fs cfg fuel roots) ⟨false, []⟩
    (out.1.map renderFull, out.2.2)

/-- `getShortDescrAndTimestamp` (lines 264-384): writes the wall-clock
header line and the first root path, then runs the same loop with the same
record format.  `t` is the `clock_gettime(CLOCK_REALTIME)` reading. -/
def getShortDescrAndTimestamp (openFail : Bool) (t : Int × Int) (fs : FNode)
    (cfg : Cfg) (fuel : Nat) (roots : List (List String)) :
    List String × Int :=
  let hdr := [renderTs t, cfg.dir0]
  if openFail then (hdr, -1)
  else if roots.isEmpty then (hdr, 0)
  else
    let out := loopRun cfg (mkEvents fs cfg fuel roots) ⟨false, []⟩
    (hdr ++ out.1.map renderFull, out.2.2)

/-- The two modes selected by `argv[1]`. -/
inductive Mode where
  | full | short
deriving DecidableEq, Repr

/-- The driver's pre-checks (lines 110-129): the local root opens as a
directory, the *first* search root opens as a directory, and the local
root's string is a byte prefix of the first search root's string. -/
def driverChecks (fs : FNode) (rfuel : Nat) (localComps r0 : List String) :
    Bool :=
  existsAsDir rfuel fs localComps && existsAsDir rfuel fs r0 &&
    strPrefix (render localComps) (render r0)

/-- `collectFileInformation` (lines 106-149): pre-checks, output-file open
(`sinkOk` models `fopen` succeeding; on failure nothing is written), then
dispatch on the mode.  Result: the output file's lines (`none` when it was
never opened) and the return code. -/
def collectFileInformation (fs : FNode) (mode : Mode)
    (localComps r0 : List String) (rest : List (List String))
    (sinkOk openFail : Bool) (t : Int × Int) (fuel rfuel : Nat) :
    Option (List String) × Int :=
  let cfg := mkCfg localComps r0 rfuel
  if ¬ driverChecks fs rfuel localComps r0 then (none, -1)
  else if ¬ sinkOk then (none, -1)
  else
    match mode with
    | Mode.full =>
      let out := getFullDescr openFail fs cfg fuel (r0 :: rest)
      (some out.1, out.2)
    | Mode.short =>
      let out := getShortDescrAndTimestamp openFail t fs cfg fuel (r0 :: rest)
      (some out.1, out.2)

/-! ## Concrete fixtures used by the claim theorems -/

/-- All-zero metadata. -/
def m0 : FMeta := ⟨0, (0, 0), (0, 0), (0, 0)⟩

/-- Metadata carrying only a size. -/
def mSz (n : Int) : FMeta := ⟨n, (0, 0), (0, 0), (0, 0)⟩

/-- The worked scenario of spec §8: local root `/data`, search root
`/data/proj` holding `a.txt` (10 bytes) and `link -> /data/shared/x`,
where `/data/shared/x` holds `f.txt` (3 bytes). -/
def scenFS : FNode :=
  FNode.dir m0
    [("data", FNode.dir m0
      [("proj", FNode.dir m0
        [("a.txt", FNode.file (mSz 10)),
         ("link", FNode.symlink m0 "/data/shared/x")]),
       ("shared", FNode.dir m0
        [("x", FNode.dir m0 [("f.txt", FNode.file (mSz 3))])])])]

/-- Configuration of the scenario run. -/
def scenCfg : Cfg := mkCfg ["data"] ["data", "proj"] 30

/-- Records emitted by the scenario's traversal loop. -/
def scenRecs : List FileRec :=
  (loopRun scenCfg (mkEvents scenFS scenCfg 20 [["data", "proj"]])
    ⟨false, []⟩).1

/-- The scenario tree with `/data/shared` removed: `link` is broken. -/
def brokFS : FNode :=
  FNode.dir m0
    [("data", FNode.dir m0
      [("proj", FNode.dir m0
        [("link", FNode.symlink m0 "/data/shared/x")])])]

/-- Records of the broken-link run. -/
def brokRecs : List FileRec :=
  (loopRun scenCfg (mkEvents brokFS scenCfg 20 [["data", "proj"]])
    ⟨false, []⟩).1

/-- Loop-level configuration for the stale-stack run: local root `/L`,
search root `/L/s`. -/
def cfg3 : Cfg := ⟨"/L", "/L/s", 10⟩

/-- Event stream with two sibling followed symlinks `a` and `b` (each with
its follow re-visit): after entering `b`, the redirection pushed for `a` is
still on the stack below the top. -/
def ev3 : List FEvent :=
  [⟨FInfo.sl, "/L/s/a", m0, some "/L/ta", true, some true⟩,
   ⟨FInfo.d, "/L/s/a", m0, none, false, none⟩,
   ⟨FInfo.f, "/L/s/a/f", m0, none, false, none⟩,
   ⟨FInfo.sl, "/L/s/b", m0, some "/L/tb", true, some true⟩,
   ⟨FInfo.d, "/L/s/b", m0, none, false, none⟩]

/-- Loop state after the five events of `ev3`. -/
def st5 : LState := (loopRun cfg3 ev3 ⟨false, []⟩).2.1

/-- A tree with two top-level directories: `/L/s` (the checked first search
root, holding `a`) and `/M` (holding `m`), used as second root argument. -/
def twoRootFS : FNode :=
  FNode.dir m0
    [("L", FNode.dir m0 [("s", FNode.dir m0 [("a", FNode.file m0)])]),
     ("M", FNode.dir m0 [("m", FNode.file m0)])]

/-- An event whose `fts_info` is `FTS_DNR` (unreadable directory): the
classifier's `default:` branch assigns neither kind nor existence. -/
def evDnr : FEvent := ⟨FInfo.dnr, "/x", m0, none, false, none⟩

/-- The record printed for a symlink entry. -/
def slRec (e : FEvent) : FileRec :=
  ⟨e.path, some (if e.slAccess then 1 else 0), e.slResolved.getD "",
   e.meta.size, some Kind.symlink, e.meta.ctim, e.meta.atim, e.meta.mtim⟩

/-- Statement of the block-processing property at a given traversal fuel. -/
def BlockProp (cfg : Cfg) (fs : FNode) (fuel : Nat) : Prop :=
  ∀ (vcomps : List String) (node : FNode) (st : LState) (rest : List FEvent),
    st.skip = false →
    ∃ recs st2, st2.skip = false ∧
      loopRun cfg (genVisit fs cfg fuel vcomps node ++ rest) st
        = (recs ++ (loopRun cfg rest st2).1, (loopRun cfg rest st2).2) ∧
      ∀ e ∈ genVisit fs cfg fuel vcomps node, e.info = FInfo.sl →
        ∃ r ∈ recs, r.path = e.path ∧ r.kind = some Kind.symlink

/-! ## Evaluation lemmas for the loop body -/

theorem reconStack_symlink (s : List SLink) (p : String) :
    reconStack (some Kind.symlink) s p = s := by
  simp [reconStack]

theorem reconBuf_symlink (s : List SLink) (p : String) (b : String) :
    reconBuf (some Kind.symlink) s p b = b := by
  simp [reconBuf]

theorem reconStack_other (k : Option Kind) (s : List SLink) (p : String)
    (h : k ≠ some Kind.symlink) :
    reconStack k s p = s.dropWhile (fun l => !(strPrefix l.src p)) := by
  rcases s with _ | ⟨a, s⟩
  · simp [reconStack]
  · simp [reconStack, h]

theorem reconBuf_other (k : Option Kind) (s : List SLink) (p : String)
    (b : String) (h : k ≠ some Kind.symlink) :
    reconBuf k s p b =
      match s.dropWhile (fun l => !(strPrefix l.src p)) with
      | [] => b
      | top :: _ => top.dst ++ strDropN p (strLen top.src) := by
  rcases s with _ | ⟨a, s⟩
  · simp [reconBuf]
  · simp [reconBuf, h]

theorem loopStep_dp (cfg : Cfg) (e : FEvent) (st : LState)
    (h : e.info = FInfo.dp) : loopStep cfg e st = (none, st, none) := by
  simp [loopStep, h]

theorem loopStep_skip (cfg : Cfg) (e : FEvent) (st : LState)
    (h : e.info ≠ FInfo.dp) (hs : st.skip = true) :
    loopStep cfg e st = (none, ⟨false, st.stack⟩, none) := by
  simp [loopStep, h, hs]

theorem loopStep_df (cfg : Cfg) (e : FEvent) (st : LState)
    (h : e.info = FInfo.d ∨ e.info = FInfo.f) (hs : st.skip = false) :
    loopStep cfg e st =
      (some ⟨e.path, some 1, reconBuf (classifyKind e.info) st.stack e.path "",
             e.meta.size, classifyKind e.info, e.meta.ctim, e.meta.atim,
             e.meta.mtim⟩,
       ⟨false, reconStack (classifyKind e.info) st.stack e.path⟩, none) := by
  rcases h with h | h <;>
    simp [loopStep, h, hs, classifyKind, classifyEx, bufOf]

theorem loopStep_default (cfg : Cfg) (e : FEvent) (st : LState)
    (h : e.info = FInfo.dnr ∨ e.info = FInfo.ns) (hs : st.skip = false) :
    loopStep cfg e st =
      (some ⟨e.path, none, reconBuf none st.stack e.path "",
             e.meta.size, none, e.meta.ctim, e.meta.atim, e.meta.mtim⟩,
       ⟨false, reconStack none st.stack e.path⟩, none) := by
  rcases h with h | h <;>
    simp [loopStep, h, hs, classifyKind, classifyEx, bufOf]

theorem loopStep_sl (cfg : Cfg) (e : FEvent) (st : LState)
    (h : e.info = FInfo.sl) (hs : st.skip = false) :
    loopStep cfg e st =
      (let t := e.slResolved.getD ""
       if ¬ strPrefix cfg.localDir t then (some (slRec e), ⟨false, st.stack⟩, none)
       else if strPrefix cfg.dir0 t then (some (slRec e), ⟨false, st.stack⟩, none)
       else
         match e.slStat with
         | none => (some (slRec e), ⟨false, st.stack⟩, some (-1))
         | some isd =>
           if isd then (some (slRec e), ⟨true, ⟨e.path, t⟩ :: st.stack⟩, none)
           else (some (slRec e), ⟨false, st.stack⟩, none)) := by
  simp only [loopStep, h, hs]
  simp [classifyKind, classifyEx, bufOf, reconBuf_symlink, reconStack_symlink,
    slRec, h]

theorem loopRun_nil (cfg : Cfg) (st : LState) :
    loopRun cfg [] st = ([], st, 0) := rfl

theorem loopRun_cons_cont (cfg : Cfg) (e : FEvent) (rest : List FEvent)
    (st : LState) (r? : Option FileRec) (st' : LState)
    (h : loopStep cfg e st = (r?, st', none)) :
    loopRun cfg (e :: rest) st =
      (r?.toList ++ (loopRun cfg rest st').1, (loopRun cfg rest st').2) := by
  simp [loopRun, h]

theorem loopRun_cons_abort (cfg : Cfg) (e : FEvent) (rest : List FEvent)
    (st : LState) (r? : Option FileRec) (st' : LState) (rc : Int)
    (h : loopStep cfg e st = (r?, st', some rc)) :
    loopRun cfg (e :: rest) st = (r?.toList, st', rc) := by
  simp [loopRun, h]

theorem strPrefix_empty_right (a : String) :
    strPrefix a "" = true ↔ a = "" := by
  constructor
  · intro h
    apply String.ext
    have := List.isPrefixOf_iff_prefix.mp h
    simpa using List.prefix_nil.mp this
  · intro h; subst h; rfl

theorem loopStep_sl_noenter (cfg : Cfg) (e : FEvent) (st : LState)
    (h : e.info = FInfo.sl) (hs : st.skip = false)
    (hne : strPrefix cfg.localDir (e.slResolved.getD "") = false ∨
           strPrefix cfg.dir0 (e.slResolved.getD "") = true ∨
           e.slStat = some false) :
    loopStep cfg e st = (some (slRec e), ⟨false, st.stack⟩, none) := by
  rw [loopStep_sl cfg e st h hs]
  rcases hne with hne | hne | hne
  · simp [hne]
  · by_cases h1 : strPrefix cfg.localDir (e.slResolved.getD "") = true <;>
      simp [h1, hne]
  · by_cases h1 : strPrefix cfg.localDir (e.slResolved.getD "") = true <;>
      by_cases h2 : strPrefix cfg.dir0 (e.slResolved.getD "") = true <;>
      simp [h1, h2, hne]

theorem loopStep_sl_enter (cfg : Cfg) (e : FEvent) (st : LState)
    (h : e.info = FInfo.sl) (hs : st.skip = false)
    (h1 : strPrefix cfg.localDir (e.slResolved.getD "") = true)
    (h2 : strPrefix cfg.dir0 (e.slResolved.getD "") = false)
    (h3 : e.slStat = some true) :
    loopStep cfg e st =
      (some (slRec e), ⟨true, ⟨e.path, e.slResolved.getD ""⟩ :: st.stack⟩,
       none) := by
  rw [loopStep_sl cfg e st h hs]
  simp [h1, h2, h3]

theorem loopStep_sl_abort (cfg : Cfg) (e : FEvent) (st : LState)
    (h : e.info = FInfo.sl) (hs : st.skip = false)
    (h1 : strPrefix cfg.localDir (e.slResolved.getD "") = true)
    (h2 : strPrefix cfg.dir0 (e.slResolved.getD "") = false)
    (h3 : e.slStat = none) :
    loopStep cfg e st = (some (slRec e), ⟨false, st.stack⟩, some (-1)) := by
  rw [loopStep_sl cfg e st h hs]
  simp [h1, h2, h3]

/-! ## Equations of the generated stream at positive fuel -/

theorem genVisit_file (fs : FNode) (cfg : Cfg) (fuel : Nat)
    (vcomps : List String) (m : FMeta) :
    genVisit fs cfg (fuel + 1) vcomps (FNode.file m) =
      [{ info := FInfo.f, path := render vcomps, meta := m }] := rfl

theorem genVisit_dir (fs : FNode) (cfg : Cfg) (fuel : Nat)
    (vcomps : List String) (m : FMeta) (ch : List (String × FNode)) :
    genVisit fs cfg (fuel + 1) vcomps (FNode.dir m ch) =
      { info := FInfo.d, path := render vcomps, meta := m } ::
        ((ch.flatMap fun p => genVisit fs cfg fuel (vcomps ++ [p.1]) p.2) ++
          [{ info := FInfo.dp, path := render vcomps, meta := m }]) := rfl

theorem genVisit_symlink_none (fs : FNode) (cfg : Cfg) (fuel : Nat)
    (vcomps : List String) (m : FMeta) (t : String)
    (hR : realpathF cfg.rfuel fs vcomps = none) :
    genVisit fs cfg (fuel + 1) vcomps (FNode.symlink m t) =
      [slEventOf fs cfg vcomps m] := by
  simp [genVisit, hR]

theorem genVisit_symlink_nodir (fs : FNode) (cfg : Cfg) (fuel : Nat)
    (vcomps : List String) (m : FMeta) (t : String) (tc : List String)
    (tn : FNode) (hR : realpathF cfg.rfuel fs vcomps = some (tc, tn))
    (hnd : isDirN tn = false) :
    genVisit fs cfg (fuel + 1) vcomps (FNode.symlink m t) =
      [slEventOf fs cfg vcomps m] := by
  cases tn with
  | dir tm tch => simp [isDirN] at hnd
  | file tm => simp [genVisit, hR]
  | symlink tm tt => simp [genVisit, hR]

theorem genVisit_symlink_noenter (fs : FNode) (cfg : Cfg) (fuel : Nat)
    (vcomps : List String) (m : FMeta) (t : String) (tc : List String)
    (tm : FMeta) (tch : List (String × FNode))
    (hR : realpathF cfg.rfuel fs vcomps = some (tc, FNode.dir tm tch))
    (hc : strPrefix cfg.localDir (render tc) = false ∨
          strPrefix cfg.dir0 (render tc) = true) :
    genVisit fs cfg (fuel + 1) vcomps (FNode.symlink m t) =
      [slEventOf fs cfg vcomps m] := by
  rcases hc with hc | hc <;> simp [genVisit, hR, hc]

theorem genVisit_symlink_enter (fs : FNode) (cfg : Cfg) (fuel : Nat)
    (vcomps : List String) (m : FMeta) (t : String) (tc : List String)
    (tm : FMeta) (tch : List (String × FNode))
    (hR : realpathF cfg.rfuel fs vcomps = some (tc, FNode.dir tm tch))
    (h1 : strPrefix cfg.localDir (render tc) = true)
    (h2 : strPrefix cfg.dir0 (render tc) = false) :
    genVisit fs cfg (fuel + 1) vcomps (FNode.symlink m t) =
      slEventOf fs cfg vcomps m ::
        { info := FInfo.d, path := render vcomps, meta := tm } ::
          ((tch.flatMap fun p => genVisit fs cfg fuel (vcomps ++ [p.1]) p.2)
            ++ [{ info := FInfo.dp, path := render vcomps, meta := tm }]) := by
  simp [genVisit, hR, h1, h2]

/-! ## Processing generated event streams

The key compositional fact: the loop, started unskipped on the events a node
generates followed by anything else, never aborts, emits a block of records,
returns to an unskipped state, and emits a symlink record for every `FTS_SL`
event of the block. -/

theorem blockRunList (cfg : Cfg) (fs : FNode) (fuel : Nat)
    (IH : BlockProp cfg fs fuel) :
    ∀ (ch : List (String × FNode)) (vcomps : List String) (st : LState)
      (rest : List FEvent), st.skip = false →
    ∃ recs st2, st2.skip = false ∧
      loopRun cfg
          ((ch.flatMap fun p => genVisit fs cfg fuel (vcomps ++ [p.1]) p.2)
            ++ rest) st
        = (recs ++ (loopRun cfg rest st2).1, (loopRun cfg rest st2).2) ∧
      ∀ e ∈ ch.flatMap fun p => genVisit fs cfg fuel (vcomps ++ [p.1]) p.2,
        e.info = FInfo.sl →
        ∃ r ∈ recs, r.path = e.path ∧ r.kind = some Kind.symlink := by
  intro ch
  induction ch with
  | nil =>
    intro vcomps st rest hs
    exact ⟨[], st, hs, by simp, by simp⟩
  | cons p ch ih =>
    intro vcomps st rest hs
    obtain ⟨recs1, st2, h2, heq1, hsl1⟩ :=
      IH (vcomps ++ [p.1]) p.2 st
        ((ch.flatMap fun q => genVisit fs cfg fuel (vcomps ++ [q.1]) q.2)
          ++ rest) hs
    obtain ⟨recs2, st3, h3, heq2, hsl2⟩ := ih vcomps st2 rest h2
    refine ⟨recs1 ++ recs2, st3, h3, ?_, ?_⟩
    · rw [List.flatMap_cons, List.append_assoc, heq1, heq2]
      simp [List.append_assoc]
    · intro e he hsl
      rw [List.flatMap_cons, List.mem_append] at he
      rcases he with he | he
      · obtain ⟨r, hr, hp⟩ := hsl1 e he hsl
        exact ⟨r, List.mem_append_left _ hr, hp⟩
      · obtain ⟨r, hr, hp⟩ := hsl2 e he hsl
        exact ⟨r, List.mem_append_right _ hr, hp⟩

theorem blockRun (cfg : Cfg) (fs : FNode) (hL : cfg.localDir ≠ "") :
    ∀ fuel : Nat, BlockProp cfg fs fuel := by
  intro fuel
  induction fuel with
  | zero =>
    intro vcomps node st rest hs
    exact ⟨[], st, hs, by simp [genVisit], by simp [genVisit]⟩
  | succ fuel ih =>
    intro vcomps node st rest hs
    match node with
    | FNode.file m =>
      rw [genVisit]
      set e : FEvent := { info := FInfo.f, path := render vcomps, meta := m }
        with he
      have hstep := loopStep_df cfg e st (Or.inr rfl) hs
      refine ⟨[⟨e.path, some 1, reconBuf (classifyKind e.info) st.stack e.path
          "", e.meta.size, classifyKind e.info, e.meta.ctim, e.meta.atim,
          e.meta.mtim⟩],
        ⟨false, reconStack (classifyKind e.info) st.stack e.path⟩,
        rfl, ?_, ?_⟩
      · rw [List.singleton_append, loopRun_cons_cont cfg e rest st _ _ hstep]
        simp
      · intro ev hev hsl
        simp at hev
        rw [hev] at hsl
        simp [he] at hsl
    | FNode.dir m ch =>
      rw [genVisit]
      set eD : FEvent := { info := FInfo.d, path := render vcomps, meta := m }
        with heD
      set eDP : FEvent :=
        { info := FInfo.dp, path := render vcomps, meta := m } with heDP
      have hstep := loopStep_df cfg eD st (Or.inl rfl) hs
      obtain ⟨recs2, st3, h3, heq2, hsl2⟩ :=
        blockRunList cfg fs fuel ih ch vcomps
          ⟨false, reconStack (classifyKind eD.info) st.stack eD.path⟩
          (eDP :: rest) rfl
      have hdp := loopStep_dp cfg eDP st3 rfl
      refine ⟨⟨eD.path, some 1, reconBuf (classifyKind eD.info) st.stack
          eD.path "", eD.meta.size, classifyKind eD.info, eD.meta.ctim,
          eD.meta.atim, eD.meta.mtim⟩ :: recs2, st3, h3, ?_, ?_⟩
      · show loopRun cfg
            ((eD :: ((ch.flatMap fun p =>
              genVisit fs cfg fuel (vcomps ++ [p.1]) p.2) ++ [eDP])) ++ rest)
            st = _
        rw [List.cons_append,
          loopRun_cons_cont cfg eD _ st _ _ hstep, List.append_assoc,
          List.singleton_append, heq2,
          loopRun_cons_cont cfg eDP rest st3 _ _ hdp]
        simp
      · intro ev hev hsl
        simp only [List.mem_cons, List.mem_append, List.mem_singleton,
          List.not_mem_nil, or_false] at hev
        rcases hev with hev | hev | hev
        · rw [hev] at hsl; simp [heD] at hsl
        · obtain ⟨r, hr, hp⟩ := hsl2 ev hev hsl
          exact ⟨r, by simp [hr], hp⟩
        · rw [hev] at hsl; simp [heDP] at hsl
    | FNode.symlink m t =>
      have hinfo : (slEventOf fs cfg vcomps m).info = FInfo.sl := by
        simp [slEventOf]
      have hmemone : ∀ ev ∈ [slEventOf fs cfg vcomps m], ev.info = FInfo.sl →
          ∃ r ∈ [slRec (slEventOf fs cfg vcomps m)], r.path = ev.path ∧
            r.kind = some Kind.symlink := by
        intro ev hmem _
        simp only [List.mem_singleton] at hmem
        subst hmem
        exact ⟨slRec (slEventOf fs cfg vcomps m), by simp, rfl, rfl⟩
      rcases hR : realpathF cfg.rfuel fs vcomps with _ | ⟨tc, tn⟩
      · have hev : (slEventOf fs cfg vcomps m).slResolved = none := by
          simp [slEventOf, hR]
        have hpre : strPrefix cfg.localDir
            ((slEventOf fs cfg vcomps m).slResolved.getD "") = false := by
          rw [hev]
          by_contra hcc
          simp only [Bool.not_eq_false] at hcc
          exact hL ((strPrefix_empty_right cfg.localDir).mp hcc)
        have hstep := loopStep_sl_noenter cfg (slEventOf fs cfg vcomps m) st
          hinfo hs (Or.inl hpre)
        rw [genVisit_symlink_none fs cfg fuel vcomps m t hR]
        refine ⟨[slRec (slEventOf fs cfg vcomps m)], ⟨false, st.stack⟩, rfl,
          ?_, hmemone⟩
        rw [List.singleton_append, loopRun_cons_cont cfg _ rest st _ _ hstep]
        simp
      · have hres : (slEventOf fs cfg vcomps m).slResolved = some (render tc)
            := by simp [slEventOf, hR]
        have hstat : (slEventOf fs cfg vcomps m).slStat = some (isDirN tn)
            := by simp [slEventOf, hR]
        match tn with
        | FNode.dir tm tch =>
          by_cases h1 : strPrefix cfg.localDir (render tc) = true
          · by_cases h2 : strPrefix cfg.dir0 (render tc) = true
            · have hstep := loopStep_sl_noenter cfg (slEventOf fs cfg vcomps
                m) st hinfo hs (Or.inr (Or.inl (by rw [hres]; simpa using h2)))
              rw [genVisit_symlink_noenter fs cfg fuel vcomps m t tc tm tch hR
                (Or.inr h2)]
              refine ⟨[slRec (slEventOf fs cfg vcomps m)], ⟨false, st.stack⟩,
                rfl, ?_, hmemone⟩
              rw [List.singleton_append,
                loopRun_cons_cont cfg _ rest st _ _ hstep]
              simp
            · have h2f : strPrefix cfg.dir0 (render tc) = false := by
                simpa using h2
              have hstep := loopStep_sl_enter cfg (slEventOf fs cfg vcomps m)
                st hinfo hs (by rw [hres]; simpa using h1)
                (by rw [hres]; simpa using h2f)
                (by rw [hstat]; simp [isDirN])
              rw [genVisit_symlink_enter fs cfg fuel vcomps m t tc tm tch hR
                h1 h2f]
              set push : LState :=
                ⟨true, ⟨(slEventOf fs cfg vcomps m).path,
                  (slEventOf fs cfg vcomps m).slResolved.getD ""⟩ :: st.stack⟩
                with hpush
              set eRev : FEvent :=
                { info := FInfo.d, path := render vcomps, meta := tm }
                with heRev
              set eDP : FEvent :=
                { info := FInfo.dp, path := render vcomps, meta := tm }
                with heDP
              have hskipstep := loopStep_skip cfg eRev push
                (by simp [heRev]) rfl
              obtain ⟨recs2, st3, h3s, heq2, hsl2⟩ :=
                blockRunList cfg fs fuel ih tch vcomps ⟨false, push.stack⟩
                  (eDP :: rest) rfl
              have hdp := loopStep_dp cfg eDP st3 rfl
              refine ⟨slRec (slEventOf fs cfg vcomps m) :: recs2, st3, h3s,
                ?_, ?_⟩
              · rw [List.cons_append, loopRun_cons_cont cfg _ _ st _ _ hstep,
                  List.cons_append,
                  loopRun_cons_cont cfg eRev _ push _ _ hskipstep,
                  List.append_assoc, List.singleton_append, heq2,
                  loopRun_cons_cont cfg eDP rest st3 _ _ hdp]
                simp
              · intro ev hmem hsl
                simp only [List.mem_cons, List.mem_append,
                  List.mem_singleton, List.not_mem_nil, or_false] at hmem
                rcases hmem with hmem | hmem | hmem
                · subst hmem
                  exact ⟨slRec (slEventOf fs cfg vcomps m), by simp, rfl, rfl⟩
                · rw [hmem] at hsl; simp [heRev] at hsl
                · rcases hmem with hmem | hmem
                  · obtain ⟨r, hr, hp⟩ := hsl2 ev hmem hsl
                    exact ⟨r, by simp [hr], hp⟩
                  · rw [hmem] at hsl; simp [heDP] at hsl
          · have h1f : strPrefix cfg.localDir (render tc) = false := by
              simpa using h1
            have hstep := loopStep_sl_noenter cfg (slEventOf fs cfg vcomps m)
              st hinfo hs (Or.inl (by rw [hres]; simpa using h1f))
            rw [genVisit_symlink_noenter fs cfg fuel vcomps m t tc tm tch hR
              (Or.inl h1f)]
            refine ⟨[slRec (slEventOf fs cfg vcomps m)], ⟨false, st.stack⟩,
              rfl, ?_, hmemone⟩
            rw [List.singleton_append,
              loopRun_cons_cont cfg _ rest st _ _ hstep]
            simp
        | FNode.file tm =>
          have hstep := loopStep_sl_noenter cfg (slEventOf fs cfg vcomps m)
            st hinfo hs (Or.inr (Or.inr (by rw [hstat]; simp [isDirN])))
          rw [genVisit_symlink_nodir fs cfg fuel vcomps m t tc _ hR
            (by simp [isDirN])]
          refine ⟨[slRec (slEventOf fs cfg vcomps m)], ⟨false, st.stack⟩,
            rfl, ?_, hmemone⟩
          rw [List.singleton_append,
            loopRun_cons_cont cfg _ rest st _ _ hstep]
          simp
        | FNode.symlink tm tt =>
          have hstep := loopStep_sl_noenter cfg (slEventOf fs cfg vcomps m)
            st hinfo hs (Or.inr (Or.inr (by rw [hstat]; simp [isDirN])))
          rw [genVisit_symlink_nodir fs cfg fuel vcomps m t tc _ hR
            (by simp [isDirN])]
          refine ⟨[slRec (slEventOf fs cfg vcomps m)], ⟨false, st.stack⟩,
            rfl, ?_, hmemone⟩
          rw [List.singleton_append,
            loopRun_cons_cont cfg _ rest st _ _ hstep]
          simp

/-- Every `FTS_SL` event of a full generated stream yields a symlink record
in the loop's output (the run never aborts on generated streams and the
`skip_next` flag only ever suppresses the follow re-visits). -/
theorem mkEvents_sl_record (fs : FNode) (cfg : Cfg) (fuel : Nat)
    (hL : cfg.localDir ≠ "") :
    ∀ (roots : List (List String)) (st : LState), st.skip = false →
    ∀ e ∈ mkEvents fs cfg fuel roots, e.info = FInfo.sl →
    ∃ r ∈ (loopRun cfg (mkEvents fs cfg fuel roots) st).1,
      r.path = e.path ∧ r.kind = some Kind.symlink := by
  intro roots
  induction roots with
  | nil => intro st _ e he; simp [mkEvents] at he
  | cons rt roots ih =>
    intro st hs e he hsl
    have hsplit : mkEvents fs cfg fuel (rt :: roots) =
        rootEvents fs cfg fuel rt ++ mkEvents fs cfg fuel roots := by
      simp [mkEvents]
    rcases hlp : lookupPhys cfg.rfuel fs rt with _ | n
    · have hre : rootEvents fs cfg fuel rt = [] := by
        simp [rootEvents, hlp]
      rw [hsplit, hre, List.nil_append] at he ⊢
      exact ih st hs e he hsl
    · have hre : rootEvents fs cfg fuel rt = genVisit fs cfg fuel rt n := by
        simp [rootEvents, hlp]
      obtain ⟨recs, st2, h2, heq, hslb⟩ :=
        blockRun cfg fs hL fuel rt n st (mkEvents fs cfg fuel roots) hs
      rw [hsplit, hre] at he ⊢
      rw [heq]
      rw [List.mem_append] at he
      rcases he with he | he
      · obtain ⟨r, hr, hp⟩ := hslb e he hsl
        exact ⟨r, List.mem_append_left _ hr, hp⟩
      · obtain ⟨r, hr, hp⟩ := ih st2 h2 e he hsl
        exact ⟨r, List.mem_append_right _ hr, hp⟩

/-- On any symlink event processed unskipped, the record printed is
`slRec e`, whatever the follow decision or abort outcome. -/
theorem loopStep_sl_rec (cfg : Cfg) (e : FEvent) (st : LState)
    (h : e.info = FInfo.sl) (hs : st.skip = false) :
    (loopStep cfg e st).1 = some (slRec e) := by
  rw [loopStep_sl cfg e st h hs]
  by_cases h1 : strPrefix cfg.localDir (e.slResolved.getD "") = true
  · by_cases h2 : strPrefix cfg.dir0 (e.slResolved.getD "") = true
    · simp [h1, h2]
    · rcases h3 : e.slStat with _ | isd
      · simp [h1, h2, h3]
      · cases isd <;> simp [h1, h2, h3]
  · simp [h1]

/-- The short-mode function is exactly the wall-clock line, the first-root
line, and then the full-mode output (same record format, same return
code). -/
theorem shortRun_split (openFail : Bool) (t : Int × Int) (fs : FNode)
    (cfg : Cfg) (fuel : Nat) (roots : List (List String)) :
    getShortDescrAndTimestamp openFail t fs cfg fuel roots =
      (renderTs t :: cfg.dir0 :: (getFullDescr openFail fs cfg fuel roots).1,
       (getFullDescr openFail fs cfg fuel roots).2) := by
  cases openFail
  · by_cases hr : roots.isEmpty <;>
      simp [getShortDescrAndTimestamp, getFullDescr, hr]
  · simp [getShortDescrAndTimestamp, getFullDescr]

/-- C1: For a visited non-symlink entry the reconciliation runs against the
entry's traversal path, and when the surviving top redirection applies, the
value `destinationPrefix ++ (path with sourcePrefix stripped)` is emitted in
the record's symlink-target field, while the reported path (first field)
always equals the entry's traversal path; with no surviving redirection the
target field is empty and the reported path is again the traversal path.
Symlink records always report their own traversal path.  In the worked
scenario the record for the file discovered through the link carries path
`/data/proj/link/f.txt`. -/
theorem c1_reported_and_target_paths :
    (∀ (cfg : Cfg) (e : FEvent) (st : LState) (top : SLink) (tl : List SLink),
      e.info = FInfo.d ∨ e.info = FInfo.f → st.skip = false →
      st.stack.dropWhile (fun l => !(strPrefix l.src e.path)) = top :: tl →
      (loopStep cfg e st).1 = some ⟨e.path, some 1,
        top.dst ++ strDropN e.path (strLen top.src), e.meta.size,
        classifyKind e.info, e.meta.ctim, e.meta.atim, e.meta.mtim⟩) ∧
    (∀ (cfg : Cfg) (e : FEvent) (st : LState),
      e.info = FInfo.d ∨ e.info = FInfo.f → st.skip = false →
      st.stack.dropWhile (fun l => !(strPrefix l.src e.path)) = [] →
      (loopStep cfg e st).1 = some ⟨e.path, some 1, "", e.meta.size,
        classifyKind e.info, e.meta.ctim, e.meta.atim, e.meta.mtim⟩) ∧
    (∀ (cfg : Cfg) (e : FEvent) (st : LState), e.info = FInfo.sl →
      st.skip = false →
      ((loopStep cfg e st).1.map FileRec.path) = some e.path) ∧
    (scenRecs[3]?).map FileRec.path = some "/data/proj/link/f.txt" := by
  have hknotsl : ∀ i, i = FInfo.d ∨ i = FInfo.f →
      classifyKind i ≠ some Kind.symlink := by
    intro i h
    rcases h with h | h <;> subst h <;> simp [classifyKind]
  refine ⟨?_, ?_, ?_, by decide⟩
  · intro cfg e st top tl h hs hd
    rw [loopStep_df cfg e st h hs]
    simp only [Option.some.injEq]
    rw [reconBuf_other _ _ _ _ (hknotsl _ h), hd]
  · intro cfg e st h hs hd
    rw [loopStep_df cfg e st h hs]
    simp only [Option.some.injEq]
    rw [reconBuf_other _ _ _ _ (hknotsl _ h), hd]
  · intro cfg e st h hs
    rw [loopStep_sl_rec cfg e st h hs]
    rfl

theorem c1_reported_and_target_paths_witness :
    (loopStep cfg3 ⟨FInfo.f, "/L/s/a/f", m0, none, false, none⟩
      ⟨false, [⟨"/L/s/a", "/L/ta"⟩]⟩).1 =
      some ⟨"/L/s/a/f", some 1, "/L/ta/f", 0, some Kind.regular, (0, 0),
        (0, 0), (0, 0)⟩ := by
  have h := c1_reported_and_target_paths.1 cfg3
    ⟨FInfo.f, "/L/s/a/f", m0, none, false, none⟩
    ⟨false, [⟨"/L/s/a", "/L/ta"⟩]⟩ ⟨"/L/s/a", "/L/ta"⟩ []
    (Or.inr rfl) rfl (by decide)
  rw [h]
  decide

/-- C1 as stated is false on the code: in the worked scenario the record
whose redirection is active reports the traversal path
`/data/proj/link/f.txt` as its path, not `destinationPrefix ++ (path with
sourcePrefix stripped)` = `/data/shared/x/f.txt`; that rewritten value is
emitted in the symlink-target field instead. -/
theorem c1_rewrite_lands_in_target_field :
    (scenRecs[3]?).map FileRec.path = some "/data/proj/link/f.txt" ∧
    (scenRecs[3]?).map FileRec.target =
      some ("/data/shared/x" ++
        strDropN "/data/proj/link/f.txt" (strLen "/data/proj/link")) ∧
    ("/data/proj/link/f.txt" : String) ≠
      "/data/shared/x" ++
        strDropN "/data/proj/link/f.txt" (strLen "/data/proj/link") := by
  refine ⟨by decide, by decide, by decide⟩

/-- C3: reconciliation pops exactly while the top's sourcePrefix is not a
prefix of the current traversal path (a `dropWhile` from the top), only
ever removes a suffix-complement from the top, and leaves a matching top
when the stack survives.  (The claim's final consequent — that entries
BELOW the top also match — is refuted separately.) -/
theorem c3_reconcile_pops_top_mismatches :
    (∀ (cfg : Cfg) (e : FEvent) (st : LState),
      e.info = FInfo.d ∨ e.info = FInfo.f → st.skip = false →
      (loopStep cfg e st).2.1.stack =
        st.stack.dropWhile (fun l => !(strPrefix l.src e.path))) ∧
    (∀ (cfg : Cfg) (e : FEvent) (st : LState),
      e.info = FInfo.d ∨ e.info = FInfo.f → st.skip = false →
      (loopStep cfg e st).2.1.stack <:+ st.stack) ∧
    (∀ (cfg : Cfg) (e : FEvent) (st : LState) (top : SLink)
      (tl : List SLink),
      e.info = FInfo.d ∨ e.info = FInfo.f → st.skip = false →
      (loopStep cfg e st).2.1.stack = top :: tl →
      strPrefix top.src e.path = true) := by
  have hknotsl : ∀ i, i = FInfo.d ∨ i = FInfo.f →
      classifyKind i ≠ some Kind.symlink := by
    intro i h
    rcases h with h | h <;> subst h <;> simp [classifyKind]
  have h1 : ∀ (cfg : Cfg) (e : FEvent) (st : LState),
      e.info = FInfo.d ∨ e.info = FInfo.f → st.skip = false →
      (loopStep cfg e st).2.1.stack =
        st.stack.dropWhile (fun l => !(strPrefix l.src e.path)) := by
    intro cfg e st h hs
    rw [loopStep_df cfg e st h hs]
    exact reconStack_other _ _ _ (hknotsl _ h)
  refine ⟨h1, ?_, ?_⟩
  · intro cfg e st h hs
    rw [h1 cfg e st h hs]
    exact List.dropWhile_suffix _
  · intro cfg e st top tl h hs hd
    rw [h1 cfg e st h hs] at hd
    have := List.head?_dropWhile_not
      (fun l => !(strPrefix l.src e.path)) st.stack
    rw [hd] at this
    simpa using this

theorem c3_reconcile_pops_top_mismatches_witness :
    (loopStep cfg3 ⟨FInfo.f, "/L/s/b/g", m0, none, false, none⟩ st5).2.1.stack
      = st5.stack.dropWhile
          (fun l => !(strPrefix l.src "/L/s/b/g")) := by
  exact c3_reconcile_pops_top_mismatches.1 cfg3
    ⟨FInfo.f, "/L/s/b/g", m0, none, false, none⟩ st5 (Or.inr rfl) (by decide)

/-- C3's consequent is false: at the consultation for `/L/s/b/g` the
reconciled stack still holds, below its matching top for `b`, the stale
redirection for `a`, whose sourcePrefix `/L/s/a` is not a prefix of the
current path. -/
theorem c3_below_top_not_prefix :
    (loopStep cfg3 ⟨FInfo.f, "/L/s/b/g", m0, none, false, none⟩ st5).2.1.stack
        = [⟨"/L/s/b", "/L/tb"⟩, ⟨"/L/s/a", "/L/ta"⟩] ∧
      strPrefix "/L/s/a" "/L/s/b/g" = false := by
  refine ⟨by decide, by decide⟩

/-- C4: directories and regular files always get existence code 1; a
symlink gets `1 + access(target, F_OK)`, which is 1 when the access check
succeeds and 0 (not 2) when resolution or the access check fails, `access`
returning -1 on failure. -/
theorem c4_existence_codes :
    (∀ (cfg : Cfg) (e : FEvent) (st : LState), st.skip = false →
      e.info = FInfo.d ∨ e.info = FInfo.f →
      (loopStep cfg e st).1.map FileRec.exCode = some (some 1)) ∧
    (∀ (cfg : Cfg) (e : FEvent) (st : LState), st.skip = false →
      e.info = FInfo.sl →
      (loopStep cfg e st).1.map FileRec.exCode =
        some (some (if e.slAccess then 1 else 0))) := by
  constructor
  · intro cfg e st hs h
    rw [loopStep_df cfg e st h hs]
    rfl
  · intro cfg e st hs h
    rw [loopStep_sl_rec cfg e st h hs]
    rfl

theorem c4_existence_codes_witness :
    (loopStep cfg3 ⟨FInfo.sl, "/L/s/c", m0, none, false, none⟩
      ⟨false, []⟩).1.map FileRec.exCode = some (some 0) := by
  have h := c4_existence_codes.2 cfg3
    ⟨FInfo.sl, "/L/s/c", m0, none, false, none⟩ ⟨false, []⟩ rfl rfl
  rw [h]
  decide

/-- C4 as stated is false on the code: the record for a broken symlink
(resolution failed) carries existence code 0, not 2 — `1 + access(...)`
with `access` returning -1 on failure. -/
theorem c4_broken_symlink_code_zero :
    (brokRecs[1]?).map FileRec.kind = some (some Kind.symlink) ∧
    (brokRecs[1]?).map FileRec.exCode = some (some 0) ∧
    some (some (0 : Int)) ≠ some (some (2 : Int)) := by
  refine ⟨by decide, by decide, by decide⟩

/-- The follow decision dichotomy: a symlink node either satisfies all
three entry conditions (target resolves, to a directory, under the local
root, not under the first search root) and generates its event, the follow
re-visit, the virtual descent and the postorder close — or fails them and
generates exactly its own event. -/
theorem genVisit_symlink_cases (fs : FNode) (cfg : Cfg) (fuel : Nat)
    (vcomps : List String) (m : FMeta) (t : String) :
    (∃ tc tm tch,
      realpathF cfg.rfuel fs vcomps = some (tc, FNode.dir tm tch) ∧
      strPrefix cfg.localDir (render tc) = true ∧
      strPrefix cfg.dir0 (render tc) = false ∧
      genVisit fs cfg (fuel + 1) vcomps (FNode.symlink m t) =
        slEventOf fs cfg vcomps m ::
          { info := FInfo.d, path := render vcomps, meta := tm } ::
            ((tch.flatMap fun p =>
                genVisit fs cfg fuel (vcomps ++ [p.1]) p.2) ++
              [{ info := FInfo.dp, path := render vcomps, meta := tm }])) ∨
    ((¬ ∃ tc tm tch,
        realpathF cfg.rfuel fs vcomps = some (tc, FNode.dir tm tch) ∧
        strPrefix cfg.localDir (render tc) = true ∧
        strPrefix cfg.dir0 (render tc) = false) ∧
      genVisit fs cfg (fuel + 1) vcomps (FNode.symlink m t) =
        [slEventOf fs cfg vcomps m]) := by
  rcases hR : realpathF cfg.rfuel fs vcomps with _ | ⟨tc, tn⟩
  · refine Or.inr ⟨?_, genVisit_symlink_none fs cfg fuel vcomps m t hR⟩
    rintro ⟨tc, tm, tch, heq, -, -⟩
    exact Option.noConfusion heq
  · match tn with
    | FNode.dir tm tch =>
      by_cases h1 : strPrefix cfg.localDir (render tc) = true
      · by_cases h2 : strPrefix cfg.dir0 (render tc) = true
        · refine Or.inr ⟨?_, genVisit_symlink_noenter fs cfg fuel vcomps m t
            tc tm tch hR (Or.inr h2)⟩
          rintro ⟨tc', tm', tch', heq, -, hb⟩
          simp only [Option.some.injEq, Prod.mk.injEq] at heq
          rw [← heq.1] at hb
          rw [hb] at h2
          cases h2
        · have h2f : strPrefix cfg.dir0 (render tc) = false := by
            simpa using h2
          exact Or.inl ⟨tc, tm, tch, rfl, h1, h2f,
            genVisit_symlink_enter fs cfg fuel vcomps m t tc tm tch hR h1 h2f⟩
      · have h1f : strPrefix cfg.localDir (render tc) = false := by
          simpa using h1
        refine Or.inr ⟨?_, genVisit_symlink_noenter fs cfg fuel vcomps m t
          tc tm tch hR (Or.inl h1f)⟩
        rintro ⟨tc', tm', tch', heq, ha, -⟩
        simp only [Option.some.injEq, Prod.mk.injEq] at heq
        rw [← heq.1] at ha
        rw [ha] at h1f
        cases h1f
    | FNode.file tm =>
      refine Or.inr ⟨?_, genVisit_symlink_nodir fs cfg fuel vcomps m t tc _
        hR (by simp [isDirN])⟩
      rintro ⟨tc', tm', tch', heq, -, -⟩
      simp only [Option.some.injEq, Prod.mk.injEq] at heq
      exact FNode.noConfusion heq.2
    | FNode.symlink tm tt =>
      refine Or.inr ⟨?_, genVisit_symlink_nodir fs cfg fuel vcomps m t tc _
        hR (by simp [isDirN])⟩
      rintro ⟨tc', tm', tch', heq, -, -⟩
      simp only [Option.some.injEq, Prod.mk.injEq] at heq
      exact FNode.noConfusion heq.2

/-- C2: every visited symlink yields a record in the output; the traversal
virtually enters (generates descent events beyond the symlink's own event)
iff the resolved target begins with the local root, does not begin with the
first search root, and is a directory; a symlink failing any condition
generates exactly its own event, so nothing is ever discovered through
it. -/
theorem c2_symlink_report_and_enter_iff :
    (∀ (fs : FNode) (cfg : Cfg) (fuel : Nat) (vcomps : List String)
      (m : FMeta) (t : String),
      1 < (genVisit fs cfg (fuel + 1) vcomps (FNode.symlink m t)).length ↔
      ∃ tc tm tch,
        realpathF cfg.rfuel fs vcomps = some (tc, FNode.dir tm tch) ∧
        strPrefix cfg.localDir (render tc) = true ∧
        strPrefix cfg.dir0 (render tc) = false) ∧
    (∀ (fs : FNode) (cfg : Cfg) (fuel : Nat) (vcomps : List String)
      (m : FMeta) (t : String),
      (¬ ∃ tc tm tch,
        realpathF cfg.rfuel fs vcomps = some (tc, FNode.dir tm tch) ∧
        strPrefix cfg.localDir (render tc) = true ∧
        strPrefix cfg.dir0 (render tc) = false) →
      genVisit fs cfg (fuel + 1) vcomps (FNode.symlink m t) =
        [slEventOf fs cfg vcomps m]) ∧
    (∀ (fs : FNode) (cfg : Cfg) (fuel : Nat) (roots : List (List String))
      (e : FEvent), cfg.localDir ≠ "" → e ∈ mkEvents fs cfg fuel roots →
      e.info = FInfo.sl →
      ∃ r ∈ (loopRun cfg (mkEvents fs cfg fuel roots) ⟨false, []⟩).1,
        r.path = e.path ∧ r.kind = some Kind.symlink) := by
  refine ⟨?_, ?_, ?_⟩
  · intro fs cfg fuel vcomps m t
    rcases genVisit_symlink_cases fs cfg fuel vcomps m t with
      ⟨tc, tm, tch, hR, h1, h2, heq⟩ | ⟨hno, heq⟩
    · rw [heq]
      simp only [List.length_cons, List.length_append, List.length_singleton]
      constructor
      · intro _
        exact ⟨tc, tm, tch, hR, h1, h2⟩
      · intro _
        omega
    · rw [heq]
      simp only [List.length_singleton]
      constructor
      · omega
      · intro h
        exact absurd h hno
  · intro fs cfg fuel vcomps m t hno
    rcases genVisit_symlink_cases fs cfg fuel vcomps m t with
      ⟨tc, tm, tch, hR, h1, h2, _⟩ | ⟨_, heq⟩
    · exact absurd ⟨tc, tm, tch, hR, h1, h2⟩ hno
    · exact heq
  · intro fs cfg fuel roots e hL hmem hsl
    exact mkEvents_sl_record fs cfg fuel hL roots ⟨false, []⟩ rfl e hmem hsl

theorem c2_symlink_report_and_enter_iff_witness :
    ∃ r ∈ (loopRun scenCfg (mkEvents scenFS scenCfg 20 [["data", "proj"]])
      ⟨false, []⟩).1,
      r.path = "/data/proj/link" ∧ r.kind = some Kind.symlink := by
  exact c2_symlink_report_and_enter_iff.2.2 scenFS scenCfg 20
    [["data", "proj"]]
    ⟨FInfo.sl, "/data/proj/link", m0, some "/data/shared/x", true, some true⟩
    (by decide) (by decide) rfl

/-- C5 (amended): short-mode output is the wall-clock line, the first-root
line, and then exactly the full-mode records — which do carry the three
timestamp fields, the record `fprintf` format being identical in both
functions. -/
theorem c5_short_output_shape (openFail : Bool) (t : Int × Int) (fs : FNode)
    (cfg : Cfg) (fuel : Nat) (roots : List (List String)) :
    getShortDescrAndTimestamp openFail t fs cfg fuel roots =
      (renderTs t :: cfg.dir0 :: (getFullDescr openFail fs cfg fuel roots).1,
       (getFullDescr openFail fs cfg fuel roots).2) :=
  shortRun_split openFail t fs cfg fuel roots

/-- C5's "no timestamp fields" is false on the code: the third line of a
concrete short-mode run is the full record including the three concatenated
timestamp fields, not the five-field form the claim describes. -/
theorem c5_short_record_contains_timestamps :
    ((collectFileInformation scenFS Mode.short ["data"] ["data", "proj"] []
        true false (7, 8) 20 30).1.bind (fun ls => ls[2]?)) =
      some "/data/proj;1;;0;directory;00;00;00" ∧
    some "/data/proj;1;;0;directory;00;00;00" ≠
      some "/data/proj;1;;0;directory" := by
  refine ⟨by decide, by decide⟩

/-- C6: a symlink whose resolution failed (broken/unreadable: `realpath`
returned NULL, the target buffer stayed empty and `access` failed) is
recorded with the absent existence code and the loop continues with the
next event; whereas when `stat` fails on a candidate target that passed
both prefix checks, the run returns immediately with the nonzero `stat`
result, the output ending at that record. -/
theorem c6_resolution_failure_vs_stat_failure :
    (∀ (cfg : Cfg) (e : FEvent) (st : LState) (rest : List FEvent),
      st.skip = false → e.info = FInfo.sl → e.slResolved = none →
      e.slAccess = false → cfg.localDir ≠ "" →
      loopRun cfg (e :: rest) st =
        (slRec e :: (loopRun cfg rest ⟨false, st.stack⟩).1,
         (loopRun cfg rest ⟨false, st.stack⟩).2)) ∧
    (∀ (cfg : Cfg) (e : FEvent) (st : LState) (rest : List FEvent),
      st.skip = false → e.info = FInfo.sl →
      strPrefix cfg.localDir (e.slResolved.getD "") = true →
      strPrefix cfg.dir0 (e.slResolved.getD "") = false →
      e.slStat = none →
      loopRun cfg (e :: rest) st = ([slRec e], ⟨false, st.stack⟩, -1)) := by
  constructor
  · intro cfg e st rest hs hi hres hacc hL
    have hpre : strPrefix cfg.localDir (e.slResolved.getD "") = false := by
      rw [hres]
      by_contra hcc
      simp only [Bool.not_eq_false] at hcc
      exact hL ((strPrefix_empty_right cfg.localDir).mp hcc)
    have hstep := loopStep_sl_noenter cfg e st hi hs (Or.inl hpre)
    rw [loopRun_cons_cont cfg e rest st _ _ hstep]
    simp
  · intro cfg e st rest hs hi h1 h2 h3
    have hstep := loopStep_sl_abort cfg e st hi hs h1 h2 h3
    rw [loopRun_cons_abort cfg e rest st _ _ _ hstep]
    simp

theorem c6_resolution_failure_vs_stat_failure_witness :
    loopRun cfg3 [⟨FInfo.sl, "/L/s/x", m0, none, false, none⟩] ⟨false, []⟩ =
      ([⟨"/L/s/x", some 0, "", 0, some Kind.symlink, (0, 0), (0, 0),
        (0, 0)⟩], ⟨false, []⟩, 0) ∧
    loopRun cfg3 [⟨FInfo.sl, "/L/s/y", m0, some "/L/t", true, none⟩,
        ⟨FInfo.f, "/L/s/z", m0, none, false, none⟩] ⟨false, []⟩ =
      ([⟨"/L/s/y", some 1, "/L/t", 0, some Kind.symlink, (0, 0), (0, 0),
        (0, 0)⟩], ⟨false, []⟩, -1) := by
  constructor
  · have h := c6_resolution_failure_vs_stat_failure.1 cfg3
      ⟨FInfo.sl, "/L/s/x", m0, none, false, none⟩ ⟨false, []⟩ [] rfl rfl rfl
      rfl (by decide)
    rw [h]
    decide
  · have h := c6_resolution_failure_vs_stat_failure.2 cfg3
      ⟨FInfo.sl, "/L/s/y", m0, some "/L/t", true, none⟩ ⟨false, []⟩
      [⟨FInfo.f, "/L/s/z", m0, none, false, none⟩] rfl rfl (by decide)
      (by decide) rfl
    rw [h]
    decide

/-- C7 (amended): when the traversal cannot be opened (after the driver's
checks passed and the sink opened), the run returns -1 in both modes; the
full-mode sink is empty, but the short-mode sink already holds the two
header lines (wall-clock and first root), written before `fts_open` is
attempted. -/
theorem c7_open_fail_outputs (fs : FNode) (localComps r0 : List String)
    (rest : List (List String)) (t : Int × Int) (fuel rfuel : Nat)
    (hdc : driverChecks fs rfuel localComps r0 = true) :
    collectFileInformation fs Mode.full localComps r0 rest true true t fuel
        rfuel = (some [], -1) ∧
    collectFileInformation fs Mode.short localComps r0 rest true true t fuel
        rfuel = (some [renderTs t, render r0], -1) := by
  constructor <;>
    simp [collectFileInformation, hdc, getFullDescr,
      getShortDescrAndTimestamp, mkCfg]

theorem c7_open_fail_outputs_witness :
    collectFileInformation scenFS Mode.full ["data"] ["data", "proj"] []
        true true (7, 8) 20 30 = (some [], -1) ∧
    collectFileInformation scenFS Mode.short ["data"] ["data", "proj"] []
        true true (7, 8) 20 30 = (some [renderTs (7, 8), render
        ["data", "proj"]], -1) :=
  c7_open_fail_outputs scenFS ["data"] ["data", "proj"] [] (7, 8) 20 30
    (by decide)

/-- C7's "no output in both modes" is false on the code: a short-mode run
whose traversal open fails still leaves the two header lines in the
sink. -/
theorem c7_short_open_fail_writes_headers :
    (collectFileInformation scenFS Mode.short ["data"] ["data", "proj"] []
        true true (7, 8) 20 30).1 = some ["78", "/data/proj"] ∧
    some ["78", "/data/proj"] ≠ some ([] : List String) := by
  refine ⟨by decide, by decide⟩

/-- C8 (amended): the driver's existence and prefix pre-checks consult only
the first search root — whether the run is accepted is unchanged by the
remaining root arguments — but `fts_open` receives the whole argv tail, so
the traversal walks every supplied root in order and emits records for each
of them. -/
theorem c8_only_first_root_checked :
    (∀ (fs : FNode) (mode : Mode) (localComps r0 : List String)
      (rest rest' : List (List String)) (sinkOk openFail : Bool)
      (t : Int × Int) (fuel rfuel : Nat),
      (collectFileInformation fs mode localComps r0 rest sinkOk openFail t
          fuel rfuel).1.isSome =
      (collectFileInformation fs mode localComps r0 rest' sinkOk openFail t
          fuel rfuel).1.isSome) ∧
    (∀ (fs : FNode) (cfg : Cfg) (fuel : Nat) (r0 : List String)
      (rest : List (List String)),
      mkEvents fs cfg fuel (r0 :: rest) =
        rootEvents fs cfg fuel r0 ++ mkEvents fs cfg fuel rest) := by
  constructor
  · intro fs mode localComps r0 rest rest' sinkOk openFail t fuel rfuel
    by_cases hdc : driverChecks fs rfuel localComps r0 = true <;>
      by_cases hsk : sinkOk = true <;>
      cases mode <;>
      simp [collectFileInformation, hdc, hsk]
  · intro fs cfg fuel r0 rest
    simp [mkEvents]

/-- C8's "visits and emits records only for entries under the first search
root" is false on the code: with a second root `/M` outside the first root
`/L/s` (and outside the local root `/L`), records for `/M` and `/M/m` are
emitted. -/
theorem c8_second_root_emitted :
    (collectFileInformation twoRootFS Mode.full ["L"] ["L", "s"] [["M"]]
        true false (0, 0) 20 30).1 =
      some ["/L/s;1;;0;directory;00;00;00",
            "/L/s/a;1;;0;regular file;00;00;00",
            "/M;1;;0;directory;00;00;00",
            "/M/m;1;;0;regular file;00;00;00"] ∧
    strPrefix "/L/s" "/M/m" = false := by
  refine ⟨by decide, by decide⟩

/-- C9: the clock reading is used only for the short-mode header line: two
runs over the same tree with the same arguments give identical full-mode
results, and short-mode results identical except the first (wall-clock) line. -/
theorem c9_output_clock_independent (fs : FNode)
    (localComps r0 : List String) (rest : List (List String))
    (sinkOk openFail : Bool) (t₁ t₂ : Int × Int) (fuel rfuel : Nat) :
    collectFileInformation fs Mode.full localComps r0 rest sinkOk openFail
        t₁ fuel rfuel =
      collectFileInformation fs Mode.full localComps r0 rest sinkOk openFail
        t₂ fuel rfuel ∧
    ((collectFileInformation fs Mode.short localComps r0 rest sinkOk
        openFail t₁ fuel rfuel).1).map List.tail =
      ((collectFileInformation fs Mode.short localComps r0 rest sinkOk
        openFail t₂ fuel rfuel).1).map List.tail ∧
    (collectFileInformation fs Mode.short localComps r0 rest sinkOk openFail
        t₁ fuel rfuel).2 =
      (collectFileInformation fs Mode.short localComps r0 rest sinkOk
        openFail t₂ fuel rfuel).2 := by
  refine ⟨rfl, ?_, ?_⟩ <;>
    by_cases hdc : driverChecks fs rfuel localComps r0 = true <;>
      by_cases hsk : sinkOk = true <;>
      simp [collectFileInformation, hdc, hsk, shortRun_split]

/-- C10 (amended): for entries classified as directory, regular file or
symlink, the `switch` assigns both the kind label and the existence code
before the record is printed; but for any other `fts_info` value (e.g.
`FTS_DNR`, `FTS_NS`) the `default:` branch assigns neither, and the record
is emitted with both values unassigned (the C prints indeterminate
stack garbage there). -/
theorem c10_classified_iff_assigned :
    (∀ (cfg : Cfg) (e : FEvent) (st : LState), st.skip = false →
      e.info = FInfo.d ∨ e.info = FInfo.f ∨ e.info = FInfo.sl →
      ∃ r, (loopStep cfg e st).1 = some r ∧ r.kind.isSome = true ∧
        r.exCode.isSome = true) ∧
    (∀ (cfg : Cfg) (e : FEvent) (st : LState), st.skip = false →
      e.info = FInfo.dnr ∨ e.info = FInfo.ns →
      ∃ r, (loopStep cfg e st).1 = some r ∧ r.kind = none ∧
        r.exCode = none) := by
  constructor
  · intro cfg e st hs h
    rcases h with h | h | h
    · rw [loopStep_df cfg e st (Or.inl h) hs]
      exact ⟨_, rfl, by simp [h, classifyKind], rfl⟩
    · rw [loopStep_df cfg e st (Or.inr h) hs]
      exact ⟨_, rfl, by simp [h, classifyKind], rfl⟩
    · rw [loopStep_sl_rec cfg e st h hs]
      exact ⟨_, rfl, rfl, rfl⟩
  · intro cfg e st hs h
    rw [loopStep_default cfg e st h hs]
    exact ⟨_, rfl, rfl, rfl⟩

theorem c10_classified_iff_assigned_witness :
    ∃ r, (loopStep cfg3 evDnr ⟨false, []⟩).1 = some r ∧ r.kind = none ∧
      r.exCode = none :=
  c10_classified_iff_assigned.2 cfg3 evDnr ⟨false, []⟩ rfl (Or.inl rfl)

/-- C10 as stated is false on the code: the record emitted for an `FTS_DNR`
entry carries an unassigned kind and an unassigned existence code. -/
theorem c10_dnr_record_unassigned :
    ((loopRun cfg3 [evDnr] ⟨false, []⟩).1[0]?).map FileRec.kind =
      some none ∧
    ((loopRun cfg3 [evDnr] ⟨false, []⟩).1[0]?).map FileRec.exCode =
      some none := by
  refine ⟨by decide, by decide⟩
